import Mathlib

/-!
# Verification of the st-char-powersearch indexing & query engine

Shallow embedding of the backend/data layer of the Tag Explorer SPA
(`cards-backend.js`; the repository ships two revisions of this file and the
UI (`ui-wire.js`) calls `combinedSimilarity`/`tagSimilarity`, which exist only
in the later revision, so that revision is the one embedded; the two agree on
every function both contain).

Modelling conventions:
* JS strings are Lean `String`s (lists of scalar values); `charCodeAt` is
  `Char.toNat`, which agrees for the Basic Multilingual Plane.
* `String.prototype.toLowerCase` / `toUpperCase` are modelled as ASCII case
  mapping (`Char.toLower` / `Char.toUpper`); all tag/operator comparisons in
  the source are ASCII.
* JS numbers in the similarity/IDF arithmetic are modelled as real numbers
  (`ℝ`): sums over JS `Set`s/`Map`s become `Finset.sum`, which is well defined
  because real addition is commutative; float rounding and evaluation order
  are outside the model.
* JS `Set` iteration-order deduplication of arrays is `setDedup` below.
* A JS `Map`/object lookup that can miss is a total function with a default
  (`0` for `store.idf`, `∅` for `store.tokenMap`), mirroring the `|| 0` /
  `|| new Set()` fallbacks at every use site.
-/

namespace CardsBackend

/-- The whitespace class of JS regex `\s` (and of `String.prototype.trim`):
space, `\t\n\v\f\r`, NBSP, Ogham space, the U+2000–U+200A range, line/para
separators, narrow NBSP, math space, ideographic space, BOM. -/
def isJsWs (c : Char) : Bool :=
  decide (c.toNat = 32 ∨ (9 ≤ c.toNat ∧ c.toNat ≤ 13) ∨ c.toNat = 160 ∨ c.toNat = 5760 ∨
    (8192 ≤ c.toNat ∧ c.toNat ≤ 8202) ∨ c.toNat = 8232 ∨ c.toNat = 8233 ∨
    c.toNat = 8239 ∨ c.toNat = 8287 ∨ c.toNat = 12288 ∨ c.toNat = 65279)

/-- `l` with leading and trailing JS whitespace removed. -/
def jsTrimList (l : List Char) : List Char :=
  ((l.dropWhile isJsWs).reverse.dropWhile isJsWs).reverse

/-- JS `String.prototype.trim`. -/
def jsTrim (s : String) : String :=
  String.mk (jsTrimList s.data)

/-- JS `String.prototype.toLowerCase`, ASCII fragment. -/
def toLowerStr (s : String) : String :=
  String.mk (s.data.map Char.toLower)

/-- JS `String.prototype.toUpperCase`, ASCII fragment. -/
def toUpperStr (s : String) : String :=
  String.mk (s.data.map Char.toUpper)

/-- `normalizeTag` from the source: `t.trim().toLowerCase()`. (The
`typeof t !== "string"` guard returns `""`; inputs are strings here.) -/
def normalizeTag (t : String) : String :=
  toLowerStr (jsTrim t)

/-- Insertion-order deduplication: `Array.from(new Set(l))`. -/
def setDedup (l : List String) : List String :=
  l.foldl (fun acc t => if t ∈ acc then acc else acc ++ [t]) []

/-- `normalizeTagsLower` from the source: normalize each entry, drop empties,
deduplicate keeping first occurrences (a JS `Set` filled in order). The
`t == null` skip is vacuous for string inputs. -/
def normalizeTagsLower (arr : List String) : List String :=
  arr.foldl (fun acc t =>
    if normalizeTag t = "" then acc
    else if normalizeTag t ∈ acc then acc
    else acc ++ [normalizeTag t]) []

/-- One step of `hashString`'s DJB2 loop `h = ((h << 5) + h) ^ charCode`:
JS 32-bit ops agree with arithmetic on unsigned 32-bit residues. -/
def hashStep (h : ℕ) (c : Char) : ℕ :=
  (h * 33 % 4294967296) ^^^ c.toNat

/-- `hashString` from the source: DJB2-ish 32-bit hash rendered in base 36
(`(h >>> 0).toString(36)`; `Nat.toDigits` uses the same `0-9a-z` digits). -/
def hashString (s : String) : String :=
  String.mk (Nat.toDigits 36 (s.data.foldl hashStep 5381))

/-! ## Boolean tag-expression engine (`parseBoolExpr`)

The source tokenizes the trimmed input, converts to postfix with
shunting-yard, and returns a stack-machine evaluator over a row's tag list. -/

/-- A token of the boolean grammar (the source's `{type, val}` objects). -/
inductive BTok where
  | tag (v : String)
  | lparen
  | rparen
  | notOp
  | andOp
  | orOp
deriving DecidableEq

/-- A bare word is scanned up to whitespace or one of `( ) ! & |`
(the regex `[\s()!&|]`; quotes do NOT stop a bare word). -/
def isBoolDelim (c : Char) : Bool :=
  isJsWs c || c = '(' || c = ')' || c = '!' || c = '&' || c = '|'

/-- Is `c` one of the two quote characters? (`"` or `'`, code 39). -/
def isQuoteChar (c : Char) : Bool :=
  c = '"' || c.toNat = 39

/-- The tokenizer loop of `parseBoolExpr`, fuelled by the input length (each
iteration of the source's `while (i < s.length)` consumes at least one
character, so `l.length + 1` units of fuel always suffice). -/
def tokenizeBoolAux : ℕ → List Char → List BTok
  | 0, _ => []
  | _, [] => []
  | fuel + 1, c :: rest =>
    if isJsWs c then tokenizeBoolAux fuel rest
    else if isQuoteChar c then
      -- quoted tag: scan to the matching quote (which is then skipped; at end
      -- of input the loop stops and `i++` walks past the end, consuming all)
      BTok.tag (normalizeTag (String.mk (rest.takeWhile (fun x => x ≠ c)))) ::
        tokenizeBoolAux fuel ((rest.dropWhile (fun x => x ≠ c)).drop 1)
    else if c = '(' then BTok.lparen :: tokenizeBoolAux fuel rest
    else if c = ')' then BTok.rparen :: tokenizeBoolAux fuel rest
    else if c = '!' then BTok.notOp :: tokenizeBoolAux fuel rest
    else if c = '&' then BTok.andOp :: tokenizeBoolAux fuel rest
    else if c = '|' then BTok.orOp :: tokenizeBoolAux fuel rest
    else
      -- bare word up to a delimiter; upper-cased word may be an operator
      let word := String.mk (c :: rest.takeWhile (fun x => !isBoolDelim x))
      let up := toUpperStr word
      (if up = "AND" then BTok.andOp
       else if up = "OR" then BTok.orOp
       else if up = "NOT" then BTok.notOp
       else BTok.tag (normalizeTag word)) ::
        tokenizeBoolAux fuel (rest.dropWhile (fun x => !isBoolDelim x))

/-- Tokenize a (trimmed) boolean expression. -/
def tokenizeBool (s : String) : List BTok :=
  tokenizeBoolAux (s.data.length + 1) s.data

/-- Operator precedence: `{ "NOT":3, "AND":2, "OR":1 }`. -/
def prec : BTok → ℕ
  | BTok.notOp => 3
  | BTok.andOp => 2
  | BTok.orOp => 1
  | _ => 0

/-- Is the token one of `NOT`/`AND`/`OR`? -/
def isOpTok : BTok → Bool
  | BTok.notOp => true
  | BTok.andOp => true
  | BTok.orOp => true
  | _ => false

/-- Pop operators of precedence `≥ p` off the op stack
(the inner `while` of the shunting-yard loop); returns
(tokens popped in order, remaining stack). -/
def popOpsGE (p : ℕ) : List BTok → List BTok × List BTok
  | [] => ([], [])
  | top :: rest =>
    if isOpTok top ∧ p ≤ prec top then
      let r := popOpsGE p rest
      (top :: r.1, r.2)
    else ([], top :: rest)

/-- Pop tokens until a `(` is on top (the `)` handler's `while`); returns
(tokens popped in order, remaining stack, `(` still on top if found). -/
def popToLparen : List BTok → List BTok × List BTok
  | [] => ([], [])
  | top :: rest =>
    if top = BTok.lparen then ([], top :: rest)
    else
      let r := popToLparen rest
      (top :: r.1, r.2)

/-- One iteration of the shunting-yard `for` loop; state is
(output queue, operator stack with its top at the head). -/
def shuntStep (st : List BTok × List BTok) (t : BTok) : List BTok × List BTok :=
  match t with
  | BTok.tag v => (st.1 ++ [BTok.tag v], st.2)
  | BTok.lparen => (st.1, BTok.lparen :: st.2)
  | BTok.rparen =>
    let r := popToLparen st.2
    (st.1 ++ r.1, if r.2.head? = some BTok.lparen then r.2.tail else r.2)
  | op =>
    let r := popOpsGE (prec op) st.2
    (st.1 ++ r.1, op :: r.2)

/-- Shunting-yard conversion to postfix (RPN). The final
`while (ops.length) out.push(ops.pop())` drains the whole stack, including
any unmatched `(`, which the evaluator then ignores. -/
def toRPN (ts : List BTok) : List BTok :=
  let st := ts.foldl shuntStep ([], [])
  st.1 ++ st.2

/-- One step of the postfix stack machine. A pop from an empty stack is the
source's `stack.pop() || false`, i.e. the operand defaults to `false`.
Tokens that are not tags/operators (stray parens) fall through untouched. -/
def evalStep (tags : List String) (stack : List Bool) : BTok → List Bool
  | BTok.tag v => tags.contains v :: stack
  | BTok.notOp => (!stack.headD false) :: stack.tail
  | BTok.andOp => (stack.tail.headD false && stack.headD false) :: stack.tail.tail
  | BTok.orOp => (stack.tail.headD false || stack.headD false) :: stack.tail.tail
  | _ => stack

/-- Run the stack machine over a postfix plan; the result is
`!!stack.pop()` (so `false` on an empty final stack). -/
def evalRPN (toks : List BTok) (tags : List String) : Bool :=
  (toks.foldl (evalStep tags) []).headD false

/-- `parseBoolExpr(input).eval(store, id, row)` for a row whose (normalized)
tag list is `tags`: an empty/whitespace-only input matches everything,
otherwise the tokenized input is evaluated in postfix. -/
def evalBoolExpr (input : String) (tags : List String) : Bool :=
  if jsTrim input = "" then true
  else evalRPN (toRPN (tokenizeBool (jsTrim input))) tags

/-! ## IDF computation (`computeIdf`) -/

/-- The per-tag weight of the IDF table: `Math.log((N + 1) / (df + 1)) + 1`
(natural log with smoothing), with `N` the corpus size and `df` the tag's
document frequency. -/
noncomputable def idfWeight (N df : ℕ) : ℝ :=
  Real.log (((N : ℝ) + 1) / ((df : ℝ) + 1)) + 1

/-- `computeIdf(tagToDf, totalDocs)`: the document-frequency table (an object,
modelled as an association list) mapped to IDF weights entry by entry. -/
noncomputable def computeIdf (tagToDf : List (String × ℕ)) (totalDocs : ℕ) :
    List (String × ℝ) :=
  tagToDf.map (fun p => (p.1, Real.log (((totalDocs : ℝ) + 1) / ((p.2 : ℝ) + 1)) + 1))

/-! ## Similarity engine (`makeQueryAPI(store).tagSimilarity`)

`tagSimilarity(a, b, {mode, weightTags, idfMul})` forms `A = new Set(a.tags)`,
`B = new Set(b.tags)` and dispatches on `mode`; we take the two tag sets as
`Finset String` directly and `store.idf` as a total function (`0` = absent,
matching the `|| 0` fallback; note JS `0` is falsy exactly like a missing
entry, so `store.idf[t] || 1` is `if idf t = 0 then 1 else idf t`). -/

open Classical in
/-- The per-tag weight used by the default (cosine) branch:
`weightTags ? (store.idf[t] || 1) : 1`. -/
noncomputable def tagWeight (idf : String → ℝ) (weightTags : Bool) (t : String) : ℝ :=
  if weightTags then (if idf t = 0 then 1 else idf t) else 1

open Classical in
/-- `na`/`nb` of `cosineSimSparse`: the summed squares of a sparse vector's
values (the map with support `s` and values `f`). -/
noncomputable def cosNorm (s : Finset String) (f : String → ℝ) : ℝ :=
  ∑ t ∈ s, f t * f t

open Classical in
/-- `dot` of `cosineSimSparse`: the source iterates the smaller map (ties to
the second) and looks each key up in the bigger one, skipping keys the bigger
map lacks or maps to falsy (`if (vb)`). A key skipped by that test satisfies
`vb = 0` and would contribute `va * vb = 0`, so over `ℝ` the accumulated dot
product is the sum over the key intersection, in either iteration order. -/
noncomputable def cosDot (sa : Finset String) (fa : String → ℝ)
    (sb : Finset String) (fb : String → ℝ) : ℝ :=
  if sa.card < sb.card then ∑ t ∈ sa ∩ sb, fa t * fb t
  else ∑ t ∈ sb ∩ sa, fb t * fa t

open Classical in
/-- `cosineSimSparse(ma, mb)` on sparse vectors `(sa, fa)` and `(sb, fb)`:
`0` when the dot product or either norm is falsy, else
`dot / Math.sqrt(na * nb)`.

(A JS `Map` never holds two entries for one key, and a map entry with value
`0` contributes `0` to its own norm and is skipped by the `if (vb)` test in
the dot product; the filter keeps both sides' values nonzero, which matches
the source because a key of the iterated map with value `0` adds `va*vb = 0`
exactly when the filter drops it.) -/
noncomputable def cosineSimSparse (sa : Finset String) (fa : String → ℝ)
    (sb : Finset String) (fb : String → ℝ) : ℝ :=
  if cosDot sa fa sb fb = 0 ∨ cosNorm sa fa = 0 ∨ cosNorm sb fb = 0 then 0
  else cosDot sa fa sb fb / Real.sqrt (cosNorm sa fa * cosNorm sb fb)

open Classical in
/-- `tagSimilarity` over the two documents' tag sets `a`, `b`. Each branch is
the corresponding `if (mode === ...)` arm of the source; an unrecognized mode
falls through to the default IDF-weighted sparse cosine. -/
noncomputable def tagSimilarity (idf : String → ℝ) (mode : String)
    (weightTags : Bool) (idfMul : ℝ) (a b : Finset String) : ℝ :=
  if mode = "none" then 0
  else if mode = "overlap" then
    -- IDF-boosted overlap: sum `1 + idf*(idfMul - 1)` (or `1`) over A ∩ B
    ∑ t ∈ a ∩ b, (if weightTags then 1 + idf t * (idfMul - 1) else 1)
  else if mode = "jaccard" then
    if (a ∪ b).card ≠ 0 then ((a ∩ b).card : ℝ) / ((a ∪ b).card : ℝ) else 0
  else if mode = "dice" then
    if a.card + b.card ≠ 0 then
      2 * ((a ∩ b).card : ℝ) / ((a.card : ℝ) + (b.card : ℝ)) else 0
  else if mode = "tanimoto" then
    -- equivalent to Jaccard for binary sets (comment in the source)
    if (a ∪ b).card ≠ 0 then ((a ∩ b).card : ℝ) / ((a ∪ b).card : ℝ) else 0
  else if mode = "ochiai" then
    if Real.sqrt ((a.card : ℝ) * (b.card : ℝ)) ≠ 0 then
      ((a ∩ b).card : ℝ) / Real.sqrt ((a.card : ℝ) * (b.card : ℝ)) else 0
  else if mode = "simpson" then
    if min a.card b.card ≠ 0 then ((a ∩ b).card : ℝ) / (min a.card b.card : ℝ) else 0
  else if mode = "braun-blanquet" then
    if max a.card b.card ≠ 0 then ((a ∩ b).card : ℝ) / (max a.card b.card : ℝ) else 0
  else if mode = "hamming" then
    -- count of union elements whose membership differs
    if (a ∪ b).card ≠ 0 then
      1 - (((a ∪ b).filter (fun t => ¬((t ∈ a) ↔ (t ∈ b)))).card : ℝ) / ((a ∪ b).card : ℝ)
    else 1
  else if mode = "manhattan" then
    -- sum of absolute differences of the 0/1 membership indicators
    if (a ∪ b).card ≠ 0 then
      1 - (∑ t ∈ a ∪ b,
        |(if t ∈ a then (1 : ℝ) else 0) - (if t ∈ b then (1 : ℝ) else 0)|) / ((a ∪ b).card : ℝ)
    else 1
  else if mode = "euclidean" then
    -- sqrt of summed squared differences, against the max distance √|A ∪ B|
    if Real.sqrt ((a ∪ b).card : ℝ) ≠ 0 then
      1 - Real.sqrt (∑ t ∈ a ∪ b,
        ((if t ∈ a then (1 : ℝ) else 0) - (if t ∈ b then (1 : ℝ) else 0)) ^ 2) /
        Real.sqrt ((a ∪ b).card : ℝ)
    else 1
  else
    cosineSimSparse a (tagWeight idf weightTags) b (tagWeight idf weightTags)

/-! ## Query rows, token search (`searchTokens`) and `filter` -/

/-- The fields of a built store row that the query helpers read: `id`, the
normalized `tags`, and the derived `tag_count`/`sigma_idf` written by the
IDF pass of `buildStore`. -/
structure QRow where
  id : String
  tags : List String
  tag_count : ℕ
  sigma_idf : ℝ

/-- The store as the query API sees it: the row list and the name/creator
token index (`tokenMap`; a missing token has the empty posting set, matching
`store.tokenMap.get(t) || new Set()`). -/
structure QStore where
  rows : List QRow
  tokenMap : String → Finset String

/-- Is `c` a lowercase ASCII letter or digit (the class `[a-z0-9]`)? -/
def isAsciiAlnum (c : Char) : Bool :=
  ('a' ≤ c && c ≤ 'z') || ('0' ≤ c && c ≤ '9')

/-- `String(q||"").toLowerCase().split(/[^a-z0-9]+/).filter(Boolean)`:
the maximal `[a-z0-9]` runs of the lower-cased query, in order. -/
def queryTokens (q : String) : List String :=
  let st := (toLowerStr q).data.foldl
    (fun (acc : List String × List Char) c =>
      if isAsciiAlnum c then (acc.1, acc.2 ++ [c])
      else if acc.2 = [] then acc
      else (acc.1 ++ [String.mk acc.2], []))
    ([], [])
  if st.2 = [] then st.1 else st.1 ++ [String.mk st.2]

/-- The `for (const t of toks)` loop of `searchTokens` after the first token:
intersect with each token's posting set, breaking early once empty. -/
def searchTokensLoop (tokenMap : String → Finset String) (cur : Finset String) :
    List String → Finset String
  | [] => cur
  | t :: rest =>
    if (cur ∩ tokenMap t).card = 0 then cur ∩ tokenMap t
    else searchTokensLoop tokenMap (cur ∩ tokenMap t) rest

/-- `searchTokens(q)`: no tokens means every row id; otherwise the first
token's posting set intersected with each further token's posting set
(with the early break once the running set is empty). -/
def searchTokens (store : QStore) (q : String) : Finset String :=
  match queryTokens q with
  | [] => (store.rows.map QRow.id).toFinset
  | t :: rest =>
    if (store.tokenMap t).card = 0 then store.tokenMap t
    else searchTokensLoop store.tokenMap (store.tokenMap t) rest

open Classical in
/-- `filter({expr, tagCountMin, tagCountMax, rarityMin, rarityMax})`: keep the
rows passing the boolean expression, the tag-count range and the rarity
range, in row order. (Source defaults: `tagCountMin = 0`,
`tagCountMax = 1e9`, `rarityMin = -1e9`, `rarityMax = 1e9`.) -/
noncomputable def filterRows (store : QStore) (expr : String)
    (tagCountMin tagCountMax rarityMin rarityMax : ℝ) : List QRow :=
  store.rows.filter (fun r => decide (
    evalBoolExpr expr r.tags = true ∧
    ¬((r.tag_count : ℝ) < tagCountMin ∨ (r.tag_count : ℝ) > tagCountMax) ∧
    ¬(r.sigma_idf < rarityMin ∨ r.sigma_idf > rarityMax)))

/-! ## Corpus build (`buildStore`): row normalization and deduplication

Only the fields that feed the claims are modelled: the raw character's
`id`/`name`/`avatar`/`data.avatar`/`image`/`tags` (presentation fields such as
dates, sizes, `fav`, `chat` and the sanitized note/description texts do not
affect row identity or the tag invariants). An absent JS field is `none`;
JS `||` chains on strings are `jsOrStr` (first non-empty present value). -/

structure RawChar where
  id : Option String
  name : Option String
  avatar : Option String
  dataAvatar : Option String
  image : Option String
  tags : Option (List String)
deriving DecidableEq

/-- First truthy value of a `||` chain of possibly-missing strings
(`undefined` and `""` are falsy), else `""`. -/
def jsOrStr : List (Option String) → String
  | [] => ""
  | none :: rest => jsOrStr rest
  | some s :: rest => if s = "" then jsOrStr rest else s

/-- JSON string escaping as in `JSON.stringify`: backslash, quote, the
named control escapes, and `\u00XX` for other control characters. -/
def jsonEscapeChar (c : Char) : List Char :=
  if c = '"' then ['\\', '"']
  else if c = '\\' then ['\\', '\\']
  else if c.toNat = 10 then ['\\', 'n']
  else if c.toNat = 13 then ['\\', 'r']
  else if c.toNat = 9 then ['\\', 't']
  else if c.toNat = 8 then ['\\', 'b']
  else if c.toNat = 12 then ['\\', 'f']
  else if c.toNat < 32 then
    ['\\', 'u', '0', '0', Nat.digitChar (c.toNat / 16), Nat.digitChar (c.toNat % 16)]
  else [c]

/-- `JSON.stringify` of a string. -/
def jsonString (s : String) : String :=
  String.mk ('"' :: s.data.flatMap jsonEscapeChar ++ ['"'])

/-- `JSON.stringify({n: name, a: avatar})`: keys in insertion order, absent
(`undefined`) values dropped. -/
def jsonStringifyNA (name avatar : Option String) : String :=
  "\x7b" ++ String.intercalate ","
    ((match name with | none => [] | some s => ["\"n\":" ++ jsonString s]) ++
     (match avatar with | none => [] | some s => ["\"a\":" ++ jsonString s])) ++ "\x7d"

/-- `deriveId(c)`: the provided id (stringified by the caller's payload
contract), else `"x_" + hashString(basis)` with
`basis = String(c.avatar || c.name || "").trim() || JSON.stringify({n,a})`.
(The one-per-session console warning is a side effect outside the model.) -/
def deriveId (c : RawChar) : String :=
  match c.id with
  | some s => s
  | none =>
    let basis0 := jsTrim (jsOrStr [c.avatar, c.name])
    "x_" ++ hashString (if basis0 = "" then jsonStringifyNA c.name c.avatar else basis0)

/-- The row fields produced by the normalization loop of `buildStore` that
the invariants concern (`id`, `name`, and the tag IIFE's result). -/
structure Row0 where
  id : String
  name : String
  tags : List String
deriving DecidableEq

/-- The `tags` IIFE of `buildStore`: the union (as an insertion-ordered set)
of the row's own normalized tags and the normalized tags found in `tag_map`
under the row's avatar key. -/
def rowTags (tag_map : List (String × List String)) (c : RawChar) : List String :=
  setDedup (normalizeTagsLower (c.tags.getD []) ++
    normalizeTagsLower ((tag_map.lookup (jsOrStr [c.avatar, c.dataAvatar, c.image])).getD []))

/-- The normalization/deduplication loop of `buildStore` over `characters`:
build a row per character, skipping any whose derived id was already seen
(`if (byId.has(id)) continue` — first occurrence wins). -/
def buildRows (tag_map : List (String × List String)) (characters : List RawChar) :
    List Row0 :=
  characters.foldl
    (fun rows c =>
      if deriveId c ∈ rows.map Row0.id then rows
      else rows ++ [{ id := deriveId c, name := jsOrStr [c.name], tags := rowTags tag_map c }])
    []

example : tokenizeBool "a AND b" = [BTok.tag "a", BTok.andOp, BTok.tag "b"] := by decide

example : toRPN (tokenizeBool "a AND b") = [BTok.tag "a", BTok.tag "b", BTok.andOp] := by decide

example : toRPN (tokenizeBool "\"multi word\" AND c") =
    [BTok.tag "multi word", BTok.tag "c", BTok.andOp] := by decide

example : evalBoolExpr "a AND b" ["a", "b", "c"] = true := by decide

example : evalBoolExpr "NOT a" ["a"] = false := by decide

/-!
## Theorems
-/

/-- C1: boolean engine evaluation semantics. For every document (tag list):
`"a AND b"` is true iff both normalized tags are present, `"a OR b"` iff at
least one is, `"NOT a"` iff `"a"` is absent, an empty/whitespace-only
expression is true for every document, and a quoted multi-word phrase is a
single tag literal. -/
theorem parseBoolExpr_semantics (tags : List String) :
    evalBoolExpr "a AND b" tags = (tags.contains "a" && tags.contains "b") ∧
    evalBoolExpr "a OR b" tags = (tags.contains "a" || tags.contains "b") ∧
    evalBoolExpr "NOT a" tags = (!tags.contains "a") ∧
    (∀ e : String, jsTrim e = "" → evalBoolExpr e tags = true) ∧
    evalBoolExpr "\"multi word\" AND c" tags =
      (tags.contains "multi word" && tags.contains "c") := by
  refine ⟨rfl, rfl, rfl, ?_, rfl⟩
  intro e he
  unfold evalBoolExpr
  rw [if_pos he]

/-- Witness for C1 at concrete inputs. -/
theorem parseBoolExpr_semantics_witness :
    evalBoolExpr "" ["x"] = true ∧ evalBoolExpr "   " ["x"] = true :=
  ⟨(parseBoolExpr_semantics ["x"]).2.2.2.1 "" (by decide),
   (parseBoolExpr_semantics ["x"]).2.2.2.1 "   " (by decide)⟩

/-- C2: operator precedence — for every document, `"a AND b OR c"` evaluates
exactly like `"(a AND b) OR c"`, and `"NOT a AND b"` like `"(NOT a) AND b"`
(shunting-yard with NOT (3) > AND (2) > OR (1), left-associative). -/
theorem parseBoolExpr_precedence (tags : List String) :
    evalBoolExpr "a AND b OR c" tags = evalBoolExpr "(a AND b) OR c" tags ∧
    evalBoolExpr "NOT a AND b" tags = evalBoolExpr "(NOT a) AND b" tags :=
  ⟨rfl, rfl⟩

/-- C8: the postfix evaluator is a total function into `Bool` (so it cannot
raise), and on malformed postfix produced by the parser a pop from an empty
stack yields the operand `false`: `"AND"` (no operands) and the dangling
`"a AND"` evaluate to `false` on every document, `"NOT"` to `true`. -/
theorem parseBoolExpr_malformed_total (tags : List String) :
    evalBoolExpr "AND" tags = false ∧
    evalBoolExpr "a AND" tags = false ∧
    evalBoolExpr "NOT" tags = true ∧
    ∀ toks : List BTok, evalRPN toks tags = true ∨ evalRPN toks tags = false := by
  refine ⟨rfl, rfl, rfl, fun toks => ?_⟩
  cases h : evalRPN toks tags
  · exact Or.inr rfl
  · exact Or.inl rfl

/-- C3: `computeIdf` assigns every tag the weight `log((N+1)/(df+1)) + 1`
(natural log); for fixed `N` this weight is strictly decreasing in `df`, and
at `df = N` it is still strictly positive. -/
theorem computeIdf_spec (tagToDf : List (String × ℕ)) (N : ℕ) :
    computeIdf tagToDf N = tagToDf.map (fun p => (p.1, idfWeight N p.2)) ∧
    (∀ df1 df2 : ℕ, df1 < df2 → idfWeight N df2 < idfWeight N df1) ∧
    0 < idfWeight N N := by
  refine ⟨rfl, ?_, ?_⟩
  · intro df1 df2 h
    unfold idfWeight
    have hN : (0 : ℝ) < (N : ℝ) + 1 := by positivity
    have h2 : (0 : ℝ) < (df2 : ℝ) + 1 := by positivity
    have hlt : ((N : ℝ) + 1) / ((df2 : ℝ) + 1) < ((N : ℝ) + 1) / ((df1 : ℝ) + 1) := by
      rw [div_lt_div_iff_of_pos_left hN h2 (by positivity)]
      exact_mod_cast Nat.succ_lt_succ h
    have := Real.log_lt_log (div_pos hN h2) hlt
    linarith
  · unfold idfWeight
    rw [div_self (by positivity : ((N : ℝ) + 1) ≠ 0), Real.log_one]
    norm_num

/-- Witness for C3: at `N = 3` the weight strictly drops from `df = 1` to
`df = 2`, and the weight at `df = N` is positive. -/
theorem computeIdf_spec_witness :
    idfWeight 3 2 < idfWeight 3 1 ∧ 0 < idfWeight 3 3 :=
  ⟨(computeIdf_spec [] 3).2.1 1 2 (by norm_num), (computeIdf_spec [] 3).2.2⟩

/-! ### Similarity-engine lemmas -/

/-- The default branch's per-tag weight is never `0` (a zero/absent IDF entry
falls back to `1`). -/
theorem tagWeight_ne_zero (idf : String → ℝ) (wt : Bool) (t : String) :
    tagWeight idf wt t ≠ 0 := by
  unfold tagWeight
  split_ifs with h1 h2
  · norm_num
  · exact h2
  · norm_num

/-- The dot product of `cosineSimSparse` is symmetric when both vectors carry
the same weight function (as in every call from `tagSimilarity`). -/
theorem cosDot_symm (f : String → ℝ) (sa sb : Finset String) :
    cosDot sa f sb f = cosDot sb f sa f := by
  unfold cosDot
  rcases lt_trichotomy sa.card sb.card with h | h | h
  · rw [if_pos h, if_neg (by omega)]
  · rw [if_neg (by omega), if_neg (by omega), Finset.inter_comm]
  · rw [if_neg (by omega), if_pos h]

/-- `cosineSimSparse` is symmetric for a shared weight function. -/
theorem cosineSimSparse_symm (f : String → ℝ) (sa sb : Finset String) :
    cosineSimSparse sa f sb f = cosineSimSparse sb f sa f := by
  unfold cosineSimSparse
  rw [cosDot_symm f sa sb, mul_comm (cosNorm sa f) (cosNorm sb f)]
  exact if_congr (by tauto) rfl rfl

/-- `cosineSimSparse` of a nonempty vector with itself is `1` when no weight
is zero. -/
theorem cosineSimSparse_self (f : String → ℝ) (a : Finset String)
    (hne : a.Nonempty) (hf : ∀ t, f t ≠ 0) :
    cosineSimSparse a f a f = 1 := by
  have hdot : cosDot a f a f = cosNorm a f := by
    unfold cosDot cosNorm
    rw [if_neg (lt_irrefl _), Finset.inter_self]
  have hpos : 0 < cosNorm a f := by
    unfold cosNorm
    exact Finset.sum_pos (fun t _ => mul_self_pos.mpr (hf t)) hne
  unfold cosineSimSparse
  rw [hdot, if_neg (by push_neg; exact ⟨ne_of_gt hpos, ne_of_gt hpos, ne_of_gt hpos⟩),
    Real.sqrt_mul_self hpos.le, div_self (ne_of_gt hpos)]

/-- An unrecognized mode reaches the final (cosine) branch of the dispatch. -/
theorem tagSimilarity_eq_default (idf : String → ℝ) (wt : Bool) (im : ℝ)
    (a b : Finset String) (m : String)
    (hm : m ∉ (["none", "overlap", "jaccard", "dice", "tanimoto", "ochiai", "simpson",
      "braun-blanquet", "hamming", "manhattan", "euclidean"] : List String)) :
    tagSimilarity idf m wt im a b =
      cosineSimSparse a (tagWeight idf wt) b (tagWeight idf wt) := by
  simp only [List.mem_cons, List.not_mem_nil, or_false] at hm
  push_neg at hm
  obtain ⟨h1, h2, h3, h4, h5, h6, h7, h8, h9, h10, h11⟩ := hm
  unfold tagSimilarity
  rw [if_neg h1, if_neg h2, if_neg h3, if_neg h4, if_neg h5, if_neg h6, if_neg h7,
    if_neg h8, if_neg h9, if_neg h10, if_neg h11]

/-- Evaluation of the `"none"` branch. -/
theorem tagSimilarity_none (idf : String → ℝ) (wt : Bool) (im : ℝ) (a b : Finset String) :
    tagSimilarity idf "none" wt im a b = 0 := by
  unfold tagSimilarity
  rw [if_pos rfl]

/-- Evaluation of the `"overlap"` branch. -/
theorem tagSimilarity_overlap (idf : String → ℝ) (wt : Bool) (im : ℝ) (a b : Finset String) :
    tagSimilarity idf "overlap" wt im a b =
      ∑ t ∈ a ∩ b, (if wt then 1 + idf t * (im - 1) else 1) := by
  unfold tagSimilarity
  rw [if_neg (by decide), if_pos rfl]

/-- Evaluation of the `"jaccard"` branch. -/
theorem tagSimilarity_jaccard (idf : String → ℝ) (wt : Bool) (im : ℝ) (a b : Finset String) :
    tagSimilarity idf "jaccard" wt im a b =
      if (a ∪ b).card ≠ 0 then ((a ∩ b).card : ℝ) / ((a ∪ b).card : ℝ) else 0 := by
  unfold tagSimilarity
  rw [if_neg (by decide), if_neg (by decide), if_pos rfl]

/-- Evaluation of the `"dice"` branch. -/
theorem tagSimilarity_dice (idf : String → ℝ) (wt : Bool) (im : ℝ) (a b : Finset String) :
    tagSimilarity idf "dice" wt im a b =
      if a.card + b.card ≠ 0 then
        2 * ((a ∩ b).card : ℝ) / ((a.card : ℝ) + (b.card : ℝ)) else 0 := by
  unfold tagSimilarity
  rw [if_neg (by decide), if_neg (by decide), if_neg (by decide), if_pos rfl]

/-- Evaluation of the `"tanimoto"` branch (same formula as jaccard). -/
theorem tagSimilarity_tanimoto (idf : String → ℝ) (wt : Bool) (im : ℝ) (a b : Finset String) :
    tagSimilarity idf "tanimoto" wt im a b =
      if (a ∪ b).card ≠ 0 then ((a ∩ b).card : ℝ) / ((a ∪ b).card : ℝ) else 0 := by
  unfold tagSimilarity
  rw [if_neg (by decide), if_neg (by decide), if_neg (by decide), if_neg (by decide),
    if_pos rfl]

/-- Evaluation of the `"ochiai"` branch. -/
theorem tagSimilarity_ochiai (idf : String → ℝ) (wt : Bool) (im : ℝ) (a b : Finset String) :
    tagSimilarity idf "ochiai" wt im a b =
      if Real.sqrt ((a.card : ℝ) * (b.card : ℝ)) ≠ 0 then
        ((a ∩ b).card : ℝ) / Real.sqrt ((a.card : ℝ) * (b.card : ℝ)) else 0 := by
  unfold tagSimilarity
  rw [if_neg (by decide), if_neg (by decide), if_neg (by decide), if_neg (by decide),
    if_neg (by decide), if_pos rfl]

/-- Evaluation of the `"simpson"` branch. -/
theorem tagSimilarity_simpson (idf : String → ℝ) (wt : Bool) (im : ℝ) (a b : Finset String) :
    tagSimilarity idf "simpson" wt im a b =
      if min a.card b.card ≠ 0 then
        ((a ∩ b).card : ℝ) / (min a.card b.card : ℝ) else 0 := by
  unfold tagSimilarity
  rw [if_neg (by decide), if_neg (by decide), if_neg (by decide), if_neg (by decide),
    if_neg (by decide), if_neg (by decide), if_pos rfl]

/-- Evaluation of the `"braun-blanquet"` branch. -/
theorem tagSimilarity_braunBlanquet (idf : String → ℝ) (wt : Bool) (im : ℝ)
    (a b : Finset String) :
    tagSimilarity idf "braun-blanquet" wt im a b =
      if max a.card b.card ≠ 0 then
        ((a ∩ b).card : ℝ) / (max a.card b.card : ℝ) else 0 := by
  unfold tagSimilarity
  rw [if_neg (by decide), if_neg (by decide), if_neg (by decide), if_neg (by decide),
    if_neg (by decide), if_neg (by decide), if_neg (by decide), if_pos rfl]

/-- Evaluation of the `"hamming"` branch. -/
theorem tagSimilarity_hamming (idf : String → ℝ) (wt : Bool) (im : ℝ) (a b : Finset String) :
    tagSimilarity idf "hamming" wt im a b =
      if (a ∪ b).card ≠ 0 then
        1 - (((a ∪ b).filter (fun t => ¬((t ∈ a) ↔ (t ∈ b)))).card : ℝ) / ((a ∪ b).card : ℝ)
      else 1 := by
  unfold tagSimilarity
  rw [if_neg (by decide), if_neg (by decide), if_neg (by decide), if_neg (by decide),
    if_neg (by decide), if_neg (by decide), if_neg (by decide), if_neg (by decide),
    if_pos rfl]

/-- Evaluation of the `"manhattan"` branch. -/
theorem tagSimilarity_manhattan (idf : String → ℝ) (wt : Bool) (im : ℝ) (a b : Finset String) :
    tagSimilarity idf "manhattan" wt im a b =
      if (a ∪ b).card ≠ 0 then
        1 - (∑ t ∈ a ∪ b,
          |(if t ∈ a then (1 : ℝ) else 0) - (if t ∈ b then (1 : ℝ) else 0)|) / ((a ∪ b).card : ℝ)
      else 1 := by
  unfold tagSimilarity
  rw [if_neg (by decide), if_neg (by decide), if_neg (by decide), if_neg (by decide),
    if_neg (by decide), if_neg (by decide), if_neg (by decide), if_neg (by decide),
    if_neg (by decide), if_pos rfl]

/-- Evaluation of the `"euclidean"` branch. -/
theorem tagSimilarity_euclidean (idf : String → ℝ) (wt : Bool) (im : ℝ) (a b : Finset String) :
    tagSimilarity idf "euclidean" wt im a b =
      if Real.sqrt (((a ∪ b).card : ℝ)) ≠ 0 then
        1 - Real.sqrt (∑ t ∈ a ∪ b,
          ((if t ∈ a then (1 : ℝ) else 0) - (if t ∈ b then (1 : ℝ) else 0)) ^ 2) /
          Real.sqrt (((a ∪ b).card : ℝ))
      else 1 := by
  unfold tagSimilarity
  rw [if_neg (by decide), if_neg (by decide), if_neg (by decide), if_neg (by decide),
    if_neg (by decide), if_neg (by decide), if_neg (by decide), if_neg (by decide),
    if_neg (by decide), if_neg (by decide), if_pos rfl]

/-- `tagSimilarity` is symmetric in its two tag sets, for every mode,
weighting flag and IDF multiplier. -/
theorem tagSimilarity_comm (idf : String → ℝ) (mode : String) (wt : Bool) (im : ℝ)
    (a b : Finset String) :
    tagSimilarity idf mode wt im a b = tagSimilarity idf mode wt im b a := by
  by_cases hm : mode ∈ (["none", "overlap", "jaccard", "dice", "tanimoto", "ochiai",
      "simpson", "braun-blanquet", "hamming", "manhattan", "euclidean"] : List String)
  · fin_cases hm
    · rw [tagSimilarity_none idf wt im a b, tagSimilarity_none idf wt im b a]
    · rw [tagSimilarity_overlap idf wt im a b, tagSimilarity_overlap idf wt im b a,
        Finset.inter_comm]
    · rw [tagSimilarity_jaccard idf wt im a b, tagSimilarity_jaccard idf wt im b a,
        Finset.inter_comm b a, Finset.union_comm b a]
    · rw [tagSimilarity_dice idf wt im a b, tagSimilarity_dice idf wt im b a,
        Finset.inter_comm b a, Nat.add_comm b.card a.card,
        add_comm ((b.card : ℝ)) ((a.card : ℝ))]
    · rw [tagSimilarity_tanimoto idf wt im a b, tagSimilarity_tanimoto idf wt im b a,
        Finset.inter_comm b a, Finset.union_comm b a]
    · rw [tagSimilarity_ochiai idf wt im a b, tagSimilarity_ochiai idf wt im b a,
        Finset.inter_comm b a, mul_comm ((b.card : ℝ)) ((a.card : ℝ))]
    · rw [tagSimilarity_simpson idf wt im a b, tagSimilarity_simpson idf wt im b a,
        Finset.inter_comm b a, Nat.min_comm b.card a.card,
        min_comm ((b.card : ℝ)) ((a.card : ℝ))]
    · rw [tagSimilarity_braunBlanquet idf wt im a b, tagSimilarity_braunBlanquet idf wt im b a,
        Finset.inter_comm b a, Nat.max_comm b.card a.card,
        max_comm ((b.card : ℝ)) ((a.card : ℝ))]
    · rw [tagSimilarity_hamming idf wt im a b, tagSimilarity_hamming idf wt im b a,
        Finset.union_comm b a,
        Finset.filter_congr (fun t _ => by tauto :
          ∀ t ∈ a ∪ b, (¬((t ∈ b) ↔ (t ∈ a))) ↔ (¬((t ∈ a) ↔ (t ∈ b))))]
    · rw [tagSimilarity_manhattan idf wt im a b, tagSimilarity_manhattan idf wt im b a,
        Finset.union_comm b a,
        Finset.sum_congr rfl (fun t _ => abs_sub_comm
          (if t ∈ b then (1 : ℝ) else 0) (if t ∈ a then (1 : ℝ) else 0))]
    · rw [tagSimilarity_euclidean idf wt im a b, tagSimilarity_euclidean idf wt im b a,
        Finset.union_comm b a,
        Finset.sum_congr rfl (fun t _ => by ring :
          ∀ t ∈ a ∪ b, ((if t ∈ b then (1 : ℝ) else 0) - (if t ∈ a then (1 : ℝ) else 0)) ^ 2
            = ((if t ∈ a then (1 : ℝ) else 0) - (if t ∈ b then (1 : ℝ) else 0)) ^ 2)]
  · rw [tagSimilarity_eq_default idf wt im a b mode hm,
      tagSimilarity_eq_default idf wt im b a mode hm,
      cosineSimSparse_symm]

/-- Nonempty sets have nonzero card, as a real. -/
theorem card_cast_ne_zero {a : Finset String} (h : a.Nonempty) : ((a.card : ℝ)) ≠ 0 := by
  have := Finset.card_pos.mpr h
  positivity

/-- Self-similarity is `1` for the jaccard branch shape. -/
theorem self_ratio_one {a : Finset String} (h : a.Nonempty) :
    (if (a ∪ a).card ≠ 0 then ((a ∩ a).card : ℝ) / ((a ∪ a).card : ℝ) else 0) = 1 := by
  rw [Finset.union_self, Finset.inter_self,
    if_pos (Finset.card_pos.mpr h).ne',
    div_self (card_cast_ne_zero h)]

/-- Self-similarity of the jaccard branch. -/
theorem tagSimilarity_self_jaccard (idf : String → ℝ) (wt : Bool) (im : ℝ)
    (a : Finset String) (h : a.Nonempty) :
    tagSimilarity idf "jaccard" wt im a a = 1 := by
  rw [tagSimilarity_jaccard]
  exact self_ratio_one h

/-- Self-similarity of the tanimoto branch. -/
theorem tagSimilarity_self_tanimoto (idf : String → ℝ) (wt : Bool) (im : ℝ)
    (a : Finset String) (h : a.Nonempty) :
    tagSimilarity idf "tanimoto" wt im a a = 1 := by
  rw [tagSimilarity_tanimoto]
  exact self_ratio_one h

/-- Self-similarity of the dice branch. -/
theorem tagSimilarity_self_dice (idf : String → ℝ) (wt : Bool) (im : ℝ)
    (a : Finset String) (h : a.Nonempty) :
    tagSimilarity idf "dice" wt im a a = 1 := by
  have hc : a.card ≠ 0 := (Finset.card_pos.mpr h).ne'
  rw [tagSimilarity_dice, Finset.inter_self, if_pos (by omega)]
  have hcr : ((a.card : ℝ)) ≠ 0 := card_cast_ne_zero h
  field_simp
  ring

/-- Self-similarity of the ochiai branch. -/
theorem tagSimilarity_self_ochiai (idf : String → ℝ) (wt : Bool) (im : ℝ)
    (a : Finset String) (h : a.Nonempty) :
    tagSimilarity idf "ochiai" wt im a a = 1 := by
  rw [tagSimilarity_ochiai, Finset.inter_self,
    Real.sqrt_mul_self (Nat.cast_nonneg a.card),
    if_pos (card_cast_ne_zero h), div_self (card_cast_ne_zero h)]

/-- Self-similarity of the simpson branch. -/
theorem tagSimilarity_self_simpson (idf : String → ℝ) (wt : Bool) (im : ℝ)
    (a : Finset String) (h : a.Nonempty) :
    tagSimilarity idf "simpson" wt im a a = 1 := by
  rw [tagSimilarity_simpson, Finset.inter_self, min_self a.card,
    min_self ((a.card : ℝ)), if_pos (Finset.card_pos.mpr h).ne',
    div_self (card_cast_ne_zero h)]

/-- Self-similarity of the braun-blanquet branch. -/
theorem tagSimilarity_self_braunBlanquet (idf : String → ℝ) (wt : Bool) (im : ℝ)
    (a : Finset String) (h : a.Nonempty) :
    tagSimilarity idf "braun-blanquet" wt im a a = 1 := by
  rw [tagSimilarity_braunBlanquet, Finset.inter_self, max_self a.card,
    max_self ((a.card : ℝ)), if_pos (Finset.card_pos.mpr h).ne',
    div_self (card_cast_ne_zero h)]

/-- Self-similarity of the default cosine branch (`mode = "cosine"` is not an
explicitly handled mode and falls through to it). -/
theorem tagSimilarity_self_cosine (idf : String → ℝ) (wt : Bool) (im : ℝ)
    (a : Finset String) (h : a.Nonempty) :
    tagSimilarity idf "cosine" wt im a a = 1 := by
  rw [tagSimilarity_eq_default idf wt im a a "cosine" (by decide)]
  exact cosineSimSparse_self _ _ h (tagWeight_ne_zero idf wt)

/-- C4: `tagSimilarity` is symmetric for every tag-set metric mode (including
`overlap` with IDF weighting, which only examines the intersection, and the
`cosine` default), and the self-similarity of a document with a non-empty tag
set is `1` under each bounded set metric (jaccard, dice, cosine, ochiai,
simpson, braun-blanquet, tanimoto). -/
theorem tagSimilarity_symm_and_self (idf : String → ℝ) (wt : Bool) (im : ℝ)
    (a b : Finset String) :
    (∀ mode : String, tagSimilarity idf mode wt im a b = tagSimilarity idf mode wt im b a) ∧
    (a.Nonempty →
      tagSimilarity idf "jaccard" wt im a a = 1 ∧
      tagSimilarity idf "dice" wt im a a = 1 ∧
      tagSimilarity idf "cosine" wt im a a = 1 ∧
      tagSimilarity idf "ochiai" wt im a a = 1 ∧
      tagSimilarity idf "simpson" wt im a a = 1 ∧
      tagSimilarity idf "braun-blanquet" wt im a a = 1 ∧
      tagSimilarity idf "tanimoto" wt im a a = 1) :=
  ⟨fun mode => tagSimilarity_comm idf mode wt im a b,
   fun h =>
    ⟨tagSimilarity_self_jaccard idf wt im a h,
     tagSimilarity_self_dice idf wt im a h,
     tagSimilarity_self_cosine idf wt im a h,
     tagSimilarity_self_ochiai idf wt im a h,
     tagSimilarity_self_simpson idf wt im a h,
     tagSimilarity_self_braunBlanquet idf wt im a h,
     tagSimilarity_self_tanimoto idf wt im a h⟩⟩

/-- Witness for C4 at concrete tag sets. -/
theorem tagSimilarity_symm_and_self_witness :
    tagSimilarity (fun _ => 0) "jaccard" true 1 {"a"} {"b"} =
      tagSimilarity (fun _ => 0) "jaccard" true 1 {"b"} {"a"} ∧
    tagSimilarity (fun _ => 0) "jaccard" true 1 {"a"} {"a"} = 1 :=
  ⟨(tagSimilarity_symm_and_self (fun _ => 0) true 1 {"a"} {"b"}).1 "jaccard",
   ((tagSimilarity_symm_and_self (fun _ => 0) true 1 {"a"} {"a"}).2
      ⟨"a", Finset.mem_singleton_self "a"⟩).1⟩

/-- C5: the `hamming` and `manhattan` tag-set metrics are extensionally equal
on every pair of tag sets (including empty ones). -/
theorem tagSimilarity_hamming_eq_manhattan (idf : String → ℝ) (wt : Bool) (im : ℝ)
    (a b : Finset String) :
    tagSimilarity idf "hamming" wt im a b = tagSimilarity idf "manhattan" wt im a b := by
  classical
  rw [tagSimilarity_hamming, tagSimilarity_manhattan]
  have key : (∑ t ∈ a ∪ b,
      |(if t ∈ a then (1 : ℝ) else 0) - (if t ∈ b then (1 : ℝ) else 0)|)
      = (((a ∪ b).filter (fun t => ¬((t ∈ a) ↔ (t ∈ b)))).card : ℝ) := by
    rw [Finset.sum_congr rfl (fun t _ => by
        by_cases ha : t ∈ a <;> by_cases hb : t ∈ b <;> simp [ha, hb] :
        ∀ t ∈ a ∪ b, |(if t ∈ a then (1 : ℝ) else 0) - (if t ∈ b then (1 : ℝ) else 0)|
          = (if ¬((t ∈ a) ↔ (t ∈ b)) then (1 : ℝ) else 0)),
      Finset.sum_boole]
  rw [key]

/-- C10: every mode string that is not one of the explicitly handled tag-set
metrics (including `"cosine"` itself) silently falls through to the default
IDF-weighted sparse-cosine computation, not an error or `0`. -/
theorem tagSimilarity_unrecognized_default (idf : String → ℝ) (wt : Bool) (im : ℝ)
    (a b : Finset String) (m : String)
    (hm : m ∉ (["none", "overlap", "jaccard", "dice", "tanimoto", "ochiai", "simpson",
      "braun-blanquet", "hamming", "manhattan", "euclidean"] : List String)) :
    tagSimilarity idf m wt im a b =
      cosineSimSparse a (tagWeight idf wt) b (tagWeight idf wt) :=
  tagSimilarity_eq_default idf wt im a b m hm

/-- Witness for C10 at the mode string `"cosine"`. -/
theorem tagSimilarity_unrecognized_default_witness :
    tagSimilarity (fun _ => 0) "cosine" true 1 {"a"} {"a", "b"} =
      cosineSimSparse {"a"} (tagWeight (fun _ => 0) true)
        {"a", "b"} (tagWeight (fun _ => 0) true) :=
  tagSimilarity_unrecognized_default (fun _ => 0) true 1 {"a"} {"a", "b"} "cosine" (by decide)

/-! ### Token search and filter -/

/-- Membership in the intersection loop of `searchTokens`: the early break on
an empty running set never changes the final membership semantics. -/
theorem mem_searchTokensLoop (tm : String → Finset String) (ts : List String)
    (cur : Finset String) (x : String) :
    x ∈ searchTokensLoop tm cur ts ↔ x ∈ cur ∧ ∀ t ∈ ts, x ∈ tm t := by
  induction ts generalizing cur with
  | nil => simp [searchTokensLoop]
  | cons t rest ih =>
    simp only [searchTokensLoop]
    by_cases hc : (cur ∩ tm t).card = 0
    · rw [if_pos hc]
      have he : cur ∩ tm t = ∅ := Finset.card_eq_zero.mp hc
      constructor
      · intro hx
        rw [he] at hx
        exact absurd hx (Finset.not_mem_empty x)
      · rintro ⟨h1, h2⟩
        have : x ∈ cur ∩ tm t := Finset.mem_inter.mpr ⟨h1, h2 t (List.mem_cons_self t rest)⟩
        rw [he] at this
        exact absurd this (Finset.not_mem_empty x)
    · rw [if_neg hc, ih]
      simp only [Finset.mem_inter, List.mem_cons, and_assoc]
      constructor
      · rintro ⟨h1, h2, h3⟩
        exact ⟨h1, fun t' ht' => ht'.elim (fun e => e ▸ h2) (h3 t')⟩
      · rintro ⟨h1, h2⟩
        exact ⟨h1, h2 t (Or.inl rfl), fun t' ht' => h2 t' (Or.inr ht')⟩

/-- C6: token-search semantics. A query with no lowercase-alphanumeric tokens
returns every document id; a non-empty query returns exactly the intersection
of all its tokens' posting sets, so a token with no postings, or two tokens
with disjoint posting sets, force an empty result. -/
theorem searchTokens_spec (store : QStore) (q : String) :
    (queryTokens q = [] → searchTokens store q = (store.rows.map QRow.id).toFinset) ∧
    (queryTokens q ≠ [] →
      ∀ x, x ∈ searchTokens store q ↔ ∀ t ∈ queryTokens q, x ∈ store.tokenMap t) ∧
    (queryTokens q ≠ [] → ∀ t0 ∈ queryTokens q, store.tokenMap t0 = ∅ →
      searchTokens store q = ∅) ∧
    (queryTokens q ≠ [] → ∀ t1 ∈ queryTokens q, ∀ t2 ∈ queryTokens q,
      store.tokenMap t1 ∩ store.tokenMap t2 = ∅ → searchTokens store q = ∅) := by
  have main : queryTokens q ≠ [] →
      ∀ x, x ∈ searchTokens store q ↔ ∀ t ∈ queryTokens q, x ∈ store.tokenMap t := by
    intro hne x
    rcases hq : queryTokens q with _ | ⟨t, rest⟩
    · exact absurd hq hne
    · unfold searchTokens
      rw [hq]
      simp only
      by_cases hc : (store.tokenMap t).card = 0
      · rw [if_pos hc]
        have he : store.tokenMap t = ∅ := Finset.card_eq_zero.mp hc
        simp only [he, Finset.not_mem_empty, false_iff]
        intro hall
        have := hall t (List.mem_cons_self t rest)
        rw [he] at this
        exact absurd this (Finset.not_mem_empty x)
      · rw [if_neg hc, mem_searchTokensLoop]
        simp only [List.mem_cons]
        constructor
        · rintro ⟨h1, h2⟩
          exact fun t' ht' => ht'.elim (fun e => e ▸ h1) (h2 t')
        · intro h
          exact ⟨h t (Or.inl rfl), fun t' ht' => h t' (Or.inr ht')⟩
  refine ⟨?_, main, ?_, ?_⟩
  · intro h0
    unfold searchTokens
    rw [h0]
  · intro hne t0 ht0 hempty
    rw [Finset.eq_empty_iff_forall_not_mem]
    intro x hx
    have := (main hne x).mp hx t0 ht0
    rw [hempty] at this
    exact absurd this (Finset.not_mem_empty x)
  · intro hne t1 ht1 t2 ht2 hdisj
    rw [Finset.eq_empty_iff_forall_not_mem]
    intro x hx
    have h1 := (main hne x).mp hx t1 ht1
    have h2 := (main hne x).mp hx t2 ht2
    have : x ∈ store.tokenMap t1 ∩ store.tokenMap t2 := Finset.mem_inter.mpr ⟨h1, h2⟩
    rw [hdisj] at this
    exact absurd this (Finset.not_mem_empty x)

/-- A two-document store for the search/filter witnesses. -/
def wStore : QStore where
  rows := [⟨"1", ["a"], 1, 0⟩, ⟨"2", ["b"], 1, 0⟩]
  tokenMap := fun t => if t = "alice" then {"1"} else if t = "bob" then {"2"} else ∅

/-- Witness for C6: the empty query returns both ids, an unknown token
returns nothing, and two tokens with disjoint postings return nothing. -/
theorem searchTokens_spec_witness :
    searchTokens wStore "" = (wStore.rows.map QRow.id).toFinset ∧
    searchTokens wStore "zzzznotfound" = ∅ ∧
    searchTokens wStore "alice bob" = ∅ :=
  ⟨(searchTokens_spec wStore "").1 (by decide),
   (searchTokens_spec wStore "zzzznotfound").2.2.1 (by decide) "zzzznotfound"
     (by decide) (by decide),
   (searchTokens_spec wStore "alice bob").2.2.2 (by decide) "alice" (by decide) "bob"
     (by decide) (by decide)⟩

/-- C7: filter identity round-trip. With an empty (or whitespace-only)
boolean expression, any non-positive `tagCountMin`, and the other numeric
ranges at their source defaults (`tagCountMax = rarityMax = 1e9`,
`rarityMin = -1e9`), `filter` returns every document of the corpus in store
order, for every corpus whose per-row `tag_count`/`sigma_idf` lie inside
those sentinel ranges (as any real corpus's do). -/
theorem filter_identity (store : QStore) (expr : String) (tcMin : ℝ)
    (hexpr : jsTrim expr = "") (htc : tcMin ≤ 0)
    (hbound : ∀ r ∈ store.rows, (r.tag_count : ℝ) ≤ 1000000000 ∧
      -1000000000 ≤ r.sigma_idf ∧ r.sigma_idf ≤ 1000000000) :
    filterRows store expr tcMin 1000000000 (-1000000000) 1000000000 = store.rows := by
  unfold filterRows
  rw [List.filter_eq_self]
  intro r hr
  rw [decide_eq_true_eq]
  obtain ⟨h1, h2, h3⟩ := hbound r hr
  refine ⟨?_, ?_, ?_⟩
  · unfold evalBoolExpr
    rw [if_pos hexpr]
  · push_neg
    have h0 : (0 : ℝ) ≤ (r.tag_count : ℝ) := Nat.cast_nonneg r.tag_count
    exact ⟨le_trans htc h0, h1⟩
  · push_neg
    exact ⟨h2, h3⟩

/-- Witness for C7 on a concrete two-row store. -/
theorem filter_identity_witness :
    filterRows wStore " " 0 1000000000 (-1000000000) 1000000000 = wStore.rows :=
  filter_identity wStore " " 0 (by decide) le_rfl (by
    intro r hr
    have : r = (⟨"1", ["a"], 1, 0⟩ : QRow) ∨ r = (⟨"2", ["b"], 1, 0⟩ : QRow) := by
      simpa [wStore] using hr
    rcases this with h | h <;> rw [h] <;> norm_num)

/-! ### Corpus-build invariants -/

/-- `Char.ofNat` of a valid scalar value round-trips through `toNat`. -/
theorem toNat_ofNat_valid (n : ℕ) (h : n.isValidChar) : (Char.ofNat n).toNat = n := by
  simp only [Char.ofNat, dif_pos h]
  rfl

/-- `Char.toLower` adds 32 on ASCII uppercase and is the identity elsewhere,
at the level of scalar values. -/
theorem toLower_toNat (c : Char) :
    (Char.toLower c).toNat = if 65 ≤ c.toNat ∧ c.toNat ≤ 90 then c.toNat + 32 else c.toNat := by
  unfold Char.toLower
  split
  · rename_i h
    rw [if_pos (by omega)]
    exact toNat_ofNat_valid _ (Or.inl (by omega))
  · rename_i h
    rw [if_neg (by omega)]

/-- Characters with equal scalar values are equal. -/
theorem char_eq_of_toNat_eq {a b : Char} (h : a.toNat = b.toNat) : a = b := by
  apply Char.ext
  exact UInt32.toNat.inj h

/-- ASCII lower-casing is idempotent. -/
theorem toLower_idem (c : Char) : (Char.toLower c).toLower = Char.toLower c := by
  apply char_eq_of_toNat_eq
  rw [toLower_toNat, toLower_toNat]
  split_ifs <;> omega

/-- Lower-casing neither creates nor destroys whitespace. -/
theorem isJsWs_toLower (c : Char) : isJsWs (Char.toLower c) = isJsWs c := by
  simp only [isJsWs, decide_eq_decide]
  rw [toLower_toNat c]
  split_ifs with h
  · omega
  · rfl

/-- The proposition that the optional head of a list is not whitespace. -/
def noWsOpt (o : Option Char) : Prop :=
  ∀ c, o = some c → isJsWs c = false

/-- A list whose head is not whitespace survives `dropWhile isJsWs`. -/
theorem dropWhile_eq_self_of_noWs (l : List Char) (h : noWsOpt l.head?) :
    l.dropWhile isJsWs = l := by
  cases l with
  | nil => rfl
  | cons c cs =>
    have := h c rfl
    simp [List.dropWhile_cons, this]

/-- The head of `dropWhile isJsWs` is not whitespace. -/
theorem noWsOpt_head_dropWhile (l : List Char) : noWsOpt (l.dropWhile isJsWs).head? := by
  intro c hc
  have := List.head?_dropWhile_not isJsWs l
  rw [hc] at this
  exact this

/-- The last element of the second (reversed-side) `dropWhile` pass of
`jsTrimList` is not whitespace: it is the head of the first pass's result. -/
theorem noWsOpt_getLast_trim2 (l : List Char) :
    noWsOpt (((l.dropWhile isJsWs).reverse.dropWhile isJsWs)).getLast? := by
  intro c hc
  obtain ⟨pre, hpre⟩ := List.dropWhile_suffix (l := (l.dropWhile isJsWs).reverse) isJsWs
  have h1 : ((l.dropWhile isJsWs).reverse).getLast? = some c := by
    rw [← hpre, List.getLast?_append, hc]
    rfl
  rw [List.getLast?_reverse] at h1
  exact noWsOpt_head_dropWhile l c h1

/-- The trimmed list has no whitespace at either edge. -/
theorem jsTrimList_noWsEdges (l : List Char) :
    noWsOpt (jsTrimList l).head? ∧ noWsOpt (jsTrimList l).getLast? := by
  unfold jsTrimList
  constructor
  · intro c hc
    rw [List.head?_reverse] at hc
    exact noWsOpt_getLast_trim2 l c hc
  · intro c hc
    rw [List.getLast?_reverse] at hc
    exact noWsOpt_head_dropWhile _ c hc

/-- Trimming a list already free of whitespace at both edges is the
identity. -/
theorem jsTrimList_eq_self (l : List Char) (h1 : noWsOpt l.head?)
    (h2 : noWsOpt l.getLast?) : jsTrimList l = l := by
  unfold jsTrimList
  rw [dropWhile_eq_self_of_noWs l h1]
  have hrev : l.reverse.dropWhile isJsWs = l.reverse := by
    apply dropWhile_eq_self_of_noWs
    intro c hc
    rw [List.head?_reverse] at hc
    exact h2 c hc
  rw [hrev, List.reverse_reverse]

/-- Lower-casing preserves a whitespace-free head. -/
theorem noWsOpt_map_toLower_head (l : List Char) (h : noWsOpt l.head?) :
    noWsOpt (l.map Char.toLower).head? := by
  intro c hc
  rw [List.head?_map] at hc
  cases hd : l.head? with
  | none => rw [hd] at hc; exact absurd hc (by simp)
  | some d =>
    rw [hd] at hc
    simp only [Option.map_some', Option.some.injEq] at hc
    rw [← hc, isJsWs_toLower]
    exact h d hd

/-- Lower-casing preserves a whitespace-free last element. -/
theorem noWsOpt_map_toLower_getLast (l : List Char) (h : noWsOpt l.getLast?) :
    noWsOpt (l.map Char.toLower).getLast? := by
  intro c hc
  rw [List.getLast?_map] at hc
  cases hd : l.getLast? with
  | none => rw [hd] at hc; exact absurd hc (by simp)
  | some d =>
    rw [hd] at hc
    simp only [Option.map_some', Option.some.injEq] at hc
    rw [← hc, isJsWs_toLower]
    exact h d hd

/-- `normalizeTag` (trim then lower-case) is idempotent: its outputs are
exactly the trimmed, lower-cased strings. -/
theorem normalizeTag_idem (s : String) : normalizeTag (normalizeTag s) = normalizeTag s := by
  show String.mk ((jsTrimList ((jsTrimList s.data).map Char.toLower)).map Char.toLower)
      = String.mk ((jsTrimList s.data).map Char.toLower)
  have hedges := jsTrimList_noWsEdges s.data
  rw [jsTrimList_eq_self _ (noWsOpt_map_toLower_head _ hedges.1)
      (noWsOpt_map_toLower_getLast _ hedges.2), List.map_map]
  congr 1
  exact List.map_congr_left (fun c _ => toLower_idem c)

/-- Invariant of the `normalizeTagsLower` fold: the accumulator stays
duplicate-free and holds only nonempty normalized-tag fixed points. -/
theorem normalizeTagsLower_go (arr : List String) :
    ∀ acc : List String, acc.Nodup → (∀ t ∈ acc, t ≠ "" ∧ normalizeTag t = t) →
    (List.foldl (fun acc t =>
        if normalizeTag t = "" then acc
        else if normalizeTag t ∈ acc then acc
        else acc ++ [normalizeTag t]) acc arr).Nodup ∧
    ∀ t ∈ List.foldl (fun acc t =>
        if normalizeTag t = "" then acc
        else if normalizeTag t ∈ acc then acc
        else acc ++ [normalizeTag t]) acc arr, t ≠ "" ∧ normalizeTag t = t := by
  induction arr with
  | nil => intro acc h1 h2; exact ⟨h1, h2⟩
  | cons x rest ih =>
    intro acc h1 h2
    simp only [List.foldl_cons]
    by_cases hx : normalizeTag x = ""
    · rw [if_pos hx]; exact ih acc h1 h2
    · rw [if_neg hx]
      by_cases hmem : normalizeTag x ∈ acc
      · rw [if_pos hmem]; exact ih acc h1 h2
      · rw [if_neg hmem]
        apply ih
        · simp [List.nodup_append, h1, hmem]
        · intro t ht
          rcases List.mem_append.mp ht with h | h
          · exact h2 t h
          · rw [List.mem_singleton] at h
            subst h
            exact ⟨hx, normalizeTag_idem x⟩

/-- The output of `normalizeTagsLower` is duplicate-free and consists of
nonempty fixed points of `normalizeTag`. -/
theorem normalizeTagsLower_prop (arr : List String) :
    (normalizeTagsLower arr).Nodup ∧
    ∀ t ∈ normalizeTagsLower arr, t ≠ "" ∧ normalizeTag t = t :=
  normalizeTagsLower_go arr [] List.nodup_nil (by simp)

/-- Invariant of the `setDedup` fold. -/
theorem setDedup_go (l : List String) :
    ∀ acc : List String, acc.Nodup →
    (List.foldl (fun acc t => if t ∈ acc then acc else acc ++ [t]) acc l).Nodup ∧
    ∀ t ∈ List.foldl (fun acc t => if t ∈ acc then acc else acc ++ [t]) acc l,
      t ∈ acc ∨ t ∈ l := by
  induction l with
  | nil => intro acc h; exact ⟨h, fun t ht => Or.inl ht⟩
  | cons x rest ih =>
    intro acc h
    simp only [List.foldl_cons]
    by_cases hx : x ∈ acc
    · rw [if_pos hx]
      obtain ⟨ha, hb⟩ := ih acc h
      exact ⟨ha, fun t ht => (hb t ht).imp id (List.mem_cons_of_mem x)⟩
    · rw [if_neg hx]
      obtain ⟨ha, hb⟩ := ih (acc ++ [x]) (by simp [List.nodup_append, h, hx])
      refine ⟨ha, fun t ht => ?_⟩
      rcases hb t ht with h' | h'
      · rcases List.mem_append.mp h' with h'' | h''
        · exact Or.inl h''
        · rw [List.mem_singleton] at h''
          exact Or.inr (h'' ▸ List.mem_cons_self x rest)
      · exact Or.inr (List.mem_cons_of_mem x h')

/-- `setDedup` yields a duplicate-free sublist of its input's elements. -/
theorem setDedup_prop (l : List String) :
    (setDedup l).Nodup ∧ ∀ t ∈ setDedup l, t ∈ l := by
  obtain ⟨h1, h2⟩ := setDedup_go l [] List.nodup_nil
  exact ⟨h1, fun t ht => (h2 t ht).resolve_left (List.not_mem_nil t)⟩

/-- A built row's tag list is duplicate-free and holds only nonempty
normalized tags. -/
theorem rowTags_prop (tm : List (String × List String)) (c : RawChar) :
    (rowTags tm c).Nodup ∧ ∀ t ∈ rowTags tm c, t ≠ "" ∧ normalizeTag t = t := by
  obtain ⟨h1, h2⟩ := setDedup_prop (normalizeTagsLower (c.tags.getD []) ++
    normalizeTagsLower ((tm.lookup (jsOrStr [c.avatar, c.dataAvatar, c.image])).getD []))
  refine ⟨h1, fun t ht => ?_⟩
  rcases List.mem_append.mp (h2 t ht) with h | h
  · exact (normalizeTagsLower_prop _).2 t h
  · exact (normalizeTagsLower_prop _).2 t h

/-- Invariant of the `buildRows` fold: ids stay duplicate-free and every
accumulated row satisfies the tag invariant. -/
theorem buildRows_go (tm : List (String × List String)) (cs : List RawChar) :
    ∀ acc : List Row0, (acc.map Row0.id).Nodup →
    (∀ r ∈ acc, r.tags.Nodup ∧ ∀ t ∈ r.tags, t ≠ "" ∧ normalizeTag t = t) →
    ((List.foldl (fun rows c =>
        if deriveId c ∈ rows.map Row0.id then rows
        else rows ++
          [{ id := deriveId c, name := jsOrStr [c.name], tags := rowTags tm c }]) acc cs).map
      Row0.id).Nodup ∧
    ∀ r ∈ List.foldl (fun rows c =>
        if deriveId c ∈ rows.map Row0.id then rows
        else rows ++
          [{ id := deriveId c, name := jsOrStr [c.name], tags := rowTags tm c }]) acc cs,
      r.tags.Nodup ∧ ∀ t ∈ r.tags, t ≠ "" ∧ normalizeTag t = t := by
  induction cs with
  | nil => intro acc h1 h2; exact ⟨h1, h2⟩
  | cons c rest ih =>
    intro acc h1 h2
    simp only [List.foldl_cons]
    by_cases hid : deriveId c ∈ acc.map Row0.id
    · rw [if_pos hid]; exact ih acc h1 h2
    · rw [if_neg hid]
      apply ih
      · rw [List.map_append]
        simp [List.nodup_append, h1, hid]
      · intro r hr
        rcases List.mem_append.mp hr with h | h
        · exact h2 r h
        · rw [List.mem_singleton] at h
          subst h
          exact rowTags_prop tm c

/-- C9: after a corpus build, every normalized document's tag list has no
duplicates and no empty strings (each entry is its own trimmed, lower-cased
normal form), and document ids are unique across the built rows. -/
theorem buildStore_row_invariants (tag_map : List (String × List String))
    (cs : List RawChar) :
    ((buildRows tag_map cs).map Row0.id).Nodup ∧
    ∀ r ∈ buildRows tag_map cs,
      r.tags.Nodup ∧ ∀ t ∈ r.tags, t ≠ "" ∧ normalizeTag t = t :=
  buildRows_go tag_map cs [] (by simp) (by simp)

/-- Witness for C9: a concrete character whose raw tags are unnormalized and
duplicated up to case/whitespace. -/
theorem buildStore_row_invariants_witness :
    (["a", "b"] : List String).Nodup ∧ ("a" ≠ "" ∧ normalizeTag "a" = "a") :=
  ⟨((buildStore_row_invariants []
      [⟨some "c1", some "Alice", none, none, none, some [" A", "a ", "B"]⟩]).2
      ⟨"c1", "Alice", ["a", "b"]⟩ (by decide)).1,
   ((buildStore_row_invariants []
      [⟨some "c1", some "Alice", none, none, none, some [" A", "a ", "B"]⟩]).2
      ⟨"c1", "Alice", ["a", "b"]⟩ (by decide)).2 "a" (by decide)⟩

end CardsBackend
